import Mathlib

/-!
Shallow embedding of the Eclipse chat server (src/server.js) and client
(src/public/chat.js): data model, socket event handlers, presence registry
and the client-side reconciliation cache, with theorems checking the
natural-language specification against this code.

Identities (Mongo ObjectIds, socket ids) are modelled as `Nat`; wall-clock
timestamps as `Nat`; the Mongo collections as Lean lists in storage order.
-/

namespace EclipseChat

/-- Attachment subdocument (server.js `AttachmentSchema`). -/
structure Attachment where
  url : String
  name : String
  size : Nat
  mime : String
deriving DecidableEq, Repr

/-- Message document (server.js `MessageSchema`): `deleted` and
`deletedForAll` are two separate Boolean flags; `seenBy` is the list of user
ids added via `$addToSet`; `createdAt` is the timestamps-plugin creation
time; `id` is the server-assigned `_id`. -/
structure Message where
  id : Nat
  conversationId : Nat
  senderId : Nat
  text : String
  attachments : List Attachment
  editedAt : Option Nat
  deleted : Bool
  deletedForAll : Bool
  seenBy : List Nat
  createdAt : Nat
deriving DecidableEq, Repr

/-- Conversation document (server.js `ConversationSchema`), restricted to the
fields the handlers touch. -/
structure Conversation where
  id : Nat
  participants : List Nat
  lastMessageText : Option String
  lastMessageAt : Option Nat
deriving DecidableEq, Repr

/-- The persistent store: the two Mongo collections, in storage order, plus
the id counter standing for ObjectId generation. -/
structure StoreState where
  conversations : List Conversation
  messages : List Message
  nextId : Nat
deriving DecidableEq, Repr

/-- Wire events emitted by the server (socket.io `emit` payload heads). -/
inductive WireEvent where
  | privateMsg (conversationId : Nat) (message : Message)
  | messageDeleted (conversationId : Nat) (messageId : Nat) (deletedForAll : Bool)
  | messageEdited (conversationId : Nat) (message : Message)
  | messageSeen (conversationId : Nat) (messageIds : List Nat) (userId : Nat)
  | userOnline (userId : Nat)
  | userOffline (userId : Nat) (lastSeenAt : Nat)
deriving DecidableEq, Repr

/-- An emission: `io.to(room).emit(...)` or the global `io.emit(...)`. -/
inductive Emit where
  | toRoom (room : Nat) (event : WireEvent)
  | toAll (event : WireEvent)
deriving DecidableEq, Repr

/-- Socket layer: connected socket ids and room memberships
(socket.io's `socket.join` adds a `(socketId, room)` pair; joining is
idempotent because rooms are sets). -/
structure SocketSystem where
  sockets : List Nat
  memberships : List (Nat × Nat)
deriving DecidableEq, Repr

/-- Embeds `socket.join(String(convId))`, executed by the `private:join` handler
only when `convId` is truthy (server.js:395-397). No authentication or
participant check is performed. -/
def privateJoin (sys : SocketSystem) (socketId : Nat) (convId : Option Nat) :
    SocketSystem :=
  match convId with
  | none => sys
  | some c =>
      if (socketId, c) ∈ sys.memberships then sys
      else { sys with memberships := sys.memberships ++ [(socketId, c)] }

/-- Delivery of one emission: a room emit reaches every connected socket
joined to the room; a global emit reaches every connected socket. -/
def deliverEmit (sys : SocketSystem) : Emit → List (Nat × WireEvent)
  | .toRoom r e =>
      (sys.sockets.filter (fun s => (s, r) ∈ sys.memberships)).map (fun s => (s, e))
  | .toAll e => sys.sockets.map (fun s => (s, e))

/-- Payload of the `private:message` client event (server.js:409-434):
`text` and `attachments` may be absent (the handler applies
`text || ''` and `attachments || []`). -/
structure SendPayload where
  convId : Nat
  tempId : String
  text : Option String
  attachments : Option (List Attachment)
deriving DecidableEq, Repr

/-- Acknowledgment returned to the sending socket via the socket.io ack
callback. -/
inductive SendAck where
  | ok (tempId : String) (message : Message)
  | err (error : String)
deriving DecidableEq, Repr

/-- Result of a server handler: new store state, caller-only ack, emissions. -/
structure HandlerResult (α : Type) where
  state : StoreState
  ack : α
  emits : List Emit
deriving DecidableEq, Repr

/-- The `private:message` handler (server.js:409-434). If
`socket.data.userId` is unset it acks `not_authenticated` and stops.
Otherwise it saves a new message, updates the conversation's last-message
preview via `findByIdAndUpdate` (a no-op when the conversation is absent;
`lastMessageText` is only written when `text` was supplied, since mongoose
drops `undefined` fields), broadcasts the populated message to the
conversation room, and acks `{ok:true, tempId, message}`. There is no check
that the sender is a participant of the conversation. -/
def privateMessage (st : StoreState) (userId : Option Nat) (p : SendPayload)
    (now : Nat) : HandlerResult SendAck :=
  match userId with
  | none => { state := st, ack := .err "not_authenticated", emits := [] }
  | some sender =>
      let msg : Message :=
        { id := st.nextId, conversationId := p.convId, senderId := sender
          text := p.text.getD "", attachments := p.attachments.getD []
          editedAt := none, deleted := false, deletedForAll := false
          seenBy := [], createdAt := now }
      let convs := st.conversations.map (fun c =>
        if c.id = p.convId then
          { c with lastMessageText := match p.text with
                     | some t => some t
                     | none => c.lastMessageText
                   lastMessageAt := some now }
        else c)
      { state := { conversations := convs, messages := st.messages ++ [msg]
                   nextId := st.nextId + 1 }
        ack := .ok p.tempId msg
        emits := [.toRoom p.convId (.privateMsg p.convId msg)] }

/-- Ack shape shared by the delete/edit handlers. -/
inductive MutAck where
  | ok
  | notFound
  | notAllowed
deriving DecidableEq, Repr

/-- Embeds `Message.findById` over the embedded collection. -/
def findMessage (st : StoreState) (messageId : Nat) : Option Message :=
  st.messages.find? (fun m => m.id = messageId)

/-- Replace the message with the given id by `m'` (the effect of mutating a
mongoose document and calling `save`). -/
def saveMessage (st : StoreState) (m' : Message) : StoreState :=
  { st with messages := st.messages.map (fun m => if m.id = m'.id then m' else m) }

/-- The delete handler, identical between `DELETE /api/messages/:id`
(server.js:316-339) and the socket `message:delete` event
(server.js:454-471). `forEveryone` requires the requester to be the sender
and then sets `deleted`, `deletedForAll` and clears `text` (attachments are
left in place); otherwise it sets only `deleted`. Both branches broadcast
`message:deleted` to the conversation room. -/
def deleteMessage (st : StoreState) (requesterId : Nat) (messageId : Nat)
    (forEveryone : Bool) : HandlerResult MutAck :=
  match findMessage st messageId with
  | none => { state := st, ack := .notFound, emits := [] }
  | some msg =>
      if forEveryone then
        if msg.senderId ≠ requesterId then
          { state := st, ack := .notAllowed, emits := [] }
        else
          let m' := { msg with deleted := true, deletedForAll := true, text := "" }
          { state := saveMessage st m', ack := .ok
            emits := [.toRoom msg.conversationId
              (.messageDeleted msg.conversationId msg.id true)] }
      else
        let m' := { msg with deleted := true }
        { state := saveMessage st m', ack := .ok
          emits := [.toRoom msg.conversationId
            (.messageDeleted msg.conversationId msg.id false)] }

/-- The edit handler (`PUT /api/messages/:id`, server.js:291-314, and socket
`message:edit`, server.js:437-451): requires the requester to be the sender,
then sets `text` and `editedAt` and broadcasts `message:edited`. -/
def editMessage (st : StoreState) (requesterId : Nat) (messageId : Nat)
    (newText : String) (now : Nat) : HandlerResult MutAck :=
  match findMessage st messageId with
  | none => { state := st, ack := .notFound, emits := [] }
  | some msg =>
      if msg.senderId ≠ requesterId then
        { state := st, ack := .notAllowed, emits := [] }
      else
        let m' := { msg with text := newText, editedAt := some now }
        { state := saveMessage st m', ack := .ok
          emits := [.toRoom msg.conversationId
            (.messageEdited msg.conversationId m')] }

/-- Embeds `$addToSet`: append the element only when absent. -/
def addToSet (l : List Nat) (x : Nat) : List Nat :=
  if x ∈ l then l else l ++ [x]

/-- The seen update (`message:seen`, server.js:474-484):
`updateMany({_id ∈ messageIds}, {$addToSet: {seenBy: userId}})`. The
requesting socket's user id is added to every listed message's `seenBy`
unconditionally — there is no participant check and no exclusion of the
message's own sender. -/
def markSeen (msgs : List Message) (messageIds : List Nat) (readerId : Nat) :
    List Message :=
  msgs.map (fun m =>
    if m.id ∈ messageIds then { m with seenBy := addToSet m.seenBy readerId } else m)

/-- The full `message:seen` handler: update then broadcast to the room named
by `convId` (the ids are not checked to belong to that conversation). -/
def messageSeen (st : StoreState) (userId : Nat) (convId : Nat)
    (messageIds : List Nat) : HandlerResult MutAck :=
  { state := { st with messages := markSeen st.messages messageIds userId }
    ack := .ok
    emits := [.toRoom convId (.messageSeen convId messageIds userId)] }

/-! ### Presence registry (server.js:354-378) -/

/-- Association-list lookup (JS `Map.get`). -/
def assocGet (l : List (Nat × List Nat)) (k : Nat) : Option (List Nat) :=
  (l.find? (fun p => p.1 = k)).map (fun p => p.2)

/-- JS `Map.set`: replace the value when the key is present, else append. -/
def assocSet (l : List (Nat × List Nat)) (k : Nat) (v : List Nat) :
    List (Nat × List Nat) :=
  if (l.find? (fun p => p.1 = k)).isSome then
    l.map (fun p => if p.1 = k then (k, v) else p)
  else l ++ [(k, v)]

/-- JS `Map.delete`. -/
def assocRemove (l : List (Nat × List Nat)) (k : Nat) : List (Nat × List Nat) :=
  l.filter (fun p => p.1 ≠ k)

/-- The two presence maps (server.js:355-356): `socketUser : socketId →
userId` and `userSockets : userId → Set(socketId)`. -/
structure PresenceState where
  socketUser : List (Nat × Nat)
  userSockets : List (Nat × List Nat)
deriving DecidableEq, Repr

/-- Embeds `setOnline(userId, socketId)` (server.js:358-364): record the socket,
add it to the user's socket set (creating the set if absent) and emit
`user:online` — unconditionally, on every authenticated connect, whether or
not the user already had live sockets. -/
def setOnline (st : PresenceState) (userId socketId : Nat) :
    PresenceState × List Emit :=
  let su := (st.socketUser.filter (fun p => p.1 ≠ socketId)) ++ [(socketId, userId)]
  let cur := (assocGet st.userSockets userId).getD []
  let cur' := if socketId ∈ cur then cur else cur ++ [socketId]
  ({ socketUser := su, userSockets := assocSet st.userSockets userId cur' },
   [.toAll (.userOnline userId)])

/-- Embeds `setOffline(userId, socketId)` (server.js:366-378): drop the socket from
both maps; only when the user's socket set becomes empty is the entry
removed and `user:offline {userId, lastSeenAt}` emitted. -/
def setOffline (st : PresenceState) (userId socketId : Nat) (now : Nat) :
    PresenceState × List Emit :=
  let su := st.socketUser.filter (fun p => p.1 ≠ socketId)
  match assocGet st.userSockets userId with
  | none => ({ st with socketUser := su }, [])
  | some s =>
      let s' := s.erase socketId
      if s' = [] then
        ({ socketUser := su, userSockets := assocRemove st.userSockets userId },
         [.toAll (.userOffline userId now)])
      else
        ({ socketUser := su, userSockets := assocSet st.userSockets userId s' }, [])

/-- A connect/disconnect event for the presence machine: `connect` is an
authenticated socket connection (server.js:384-392), `disconnect` the
socket's `disconnect` handler (server.js:492-496). -/
inductive PresenceEvent where
  | connect (userId socketId : Nat)
  | disconnect (userId socketId : Nat)
deriving DecidableEq, Repr

/-- One presence step. -/
def presenceStep (st : PresenceState) (now : Nat) :
    PresenceEvent → PresenceState × List Emit
  | .connect u s => setOnline st u s
  | .disconnect u s => setOffline st u s now

/-- The user's current connection set, as a list ([] when absent). -/
def userConns (st : PresenceState) (userId : Nat) : List Nat :=
  (assocGet st.userSockets userId).getD []

/-! ### Message listing (server.js:273-289) -/

/-- Stable insertion step for an ascending sort on `createdAt`: the new
element is placed before the first existing element whose `createdAt` is
equal or later. Under `foldr` the inserted element precedes the already
sorted elements in storage order, so tied timestamps keep their relative
storage order. -/
def insertByCreatedAt (m : Message) : List Message → List Message
  | [] => [m]
  | x :: xs =>
      if m.createdAt ≤ x.createdAt then m :: x :: xs
      else x :: insertByCreatedAt m xs

/-- Stable sort by `createdAt` ascending. Mongo's `sort({createdAt: 1})`
specifies no order among documents whose `createdAt` ties: the tie order
depends on the collection's internal order, which the query does not
control. The embedding therefore exposes the tie order as the input
(storage) order of the collection list. -/
def sortByCreatedAt (msgs : List Message) : List Message :=
  msgs.foldr insertByCreatedAt []

/-- Embeds `GET /api/conversations/:id/messages`:
`Message.find({conversationId}).sort({createdAt: 1}).limit(1000)`. The
output is identical for every authenticated caller — there is no
per-requester filtering. -/
def listMessages (msgs : List Message) (convId : Nat) : List Message :=
  (sortByCreatedAt (msgs.filter (fun m => m.conversationId = convId))).take 1000

/-- The ordering the spec asserts for `listMessages`: creation order with
ties broken by the server-assigned identity. -/
def specLe (a b : Message) : Prop :=
  a.createdAt < b.createdAt ∨ (a.createdAt = b.createdAt ∧ a.id ≤ b.id)

instance : DecidableRel specLe := fun a b => by
  unfold specLe; infer_instance

/-! ### Store operations as a machine (for invariants over sequences) -/

/-- One store-mutating request, as accepted by the socket handlers. -/
inductive ServerOp where
  | send (userId : Option Nat) (p : SendPayload) (now : Nat)
  | edit (userId : Nat) (messageId : Nat) (text : String) (now : Nat)
  | del (userId : Nat) (messageId : Nat) (forEveryone : Bool)
  | seen (userId : Nat) (convId : Nat) (messageIds : List Nat)
deriving DecidableEq, Repr

/-- State effect of one operation. -/
def applyOp (st : StoreState) : ServerOp → StoreState
  | .send u p now => (privateMessage st u p now).state
  | .edit u mid t now => (editMessage st u mid t now).state
  | .del u mid fa => (deleteMessage st u mid fa).state
  | .seen u c ids => (messageSeen st u c ids).state

/-- State effect of a sequence of operations. -/
def applyOps (st : StoreState) : List ServerOp → StoreState
  | [] => st
  | op :: ops => applyOps (applyOp st op) ops

/-! ### Client reconciliation cache (src/public/chat.js) -/

/-- An entry of the client's `messagesCache` array for one conversation:
either the optimistic object built by `sendMessage` (chat.js:343-345, with
`_id` set to the tempId and `temp: true`) or a canonical server message. -/
structure ClientMsg where
  id : String
  temp : Bool
  text : String
  senderId : Nat
  status : String
deriving DecidableEq, Repr

/-- Client state relevant to reconciliation: the per-conversation cache
array and the set of pending tempIds (`pendingSends` keys). -/
structure ClientState where
  cache : List ClientMsg
  pending : List String
deriving DecidableEq, Repr

/-- The `sendMessage` local effect while connected (chat.js:341-364): push the
optimistic entry (keyed by the tempId, status "sending") onto the cache and
register the tempId in `pendingSends`. -/
def clientSend (st : ClientState) (tempId : String) (text : String)
    (sender : Nat) : ClientState :=
  { cache := st.cache ++
      [{ id := tempId, temp := true, text := text, senderId := sender
         status := "sending" }]
    pending := st.pending ++ [tempId] }

/-- The ack callback passed to `socket.emit('private:message', …)`
(chat.js:365-379) on `{ok:true}`: it resolves the pending promise, clears
the timeout and deletes the tempId from `pendingSends`. It does not touch
the cache or the rendered list — no entry is replaced or removed. -/
def clientAckOk (st : ClientState) (tempId : String) : ClientState :=
  { st with pending := st.pending.filter (fun t => t ≠ tempId) }

/-- Embeds `receiveMessage` (chat.js:325-338), invoked on every `private:message`
room broadcast: push the broadcast message onto the cache unconditionally —
there is no lookup for an optimistic entry carrying the same tempId. -/
def receiveMessage (st : ClientState) (message : ClientMsg) : ClientState :=
  { st with cache := st.cache ++ [message] }

/-- Embeds `handleSendAck` (chat.js:393-416), which would replace the optimistic entry by
the canonical message in the cache, but it is wired only to a
`private:message:ack` socket event (chat.js:114-117) that src/server.js
never emits; the server confirms through the ack callback
(`clientAckOk`) instead, so this replacement path is dead code. -/
def handleSendAck (st : ClientState) (tempId : String) (message : ClientMsg) :
    ClientState :=
  if (st.cache.find? (fun m => m.id = tempId)).isSome then
    { cache := st.cache.map (fun m => if m.id = tempId then message else m)
      pending := st.pending.filter (fun t => t ≠ tempId) }
  else
    { cache := st.cache ++ [message]
      pending := st.pending.filter (fun t => t ≠ tempId) }

/-! ### Concrete fixtures for the counterexamples and witnesses -/

/-- A private conversation between users 1 and 2. -/
def conv12 : Conversation :=
  { id := 1, participants := [1, 2], lastMessageText := none, lastMessageAt := none }

/-- A sample attachment. -/
def att0 : Attachment :=
  { url := "/public/uploads/a.png", name := "a.png", size := 100, mime := "image/png" }

/-- A message from user 1 in conversation 1 carrying one attachment. -/
def msg1 : Message :=
  { id := 1, conversationId := 1, senderId := 1, text := "hi", attachments := [att0]
    editedAt := none, deleted := false, deletedForAll := false, seenBy := []
    createdAt := 10 }

/-- Store holding `conv12` and `msg1`. -/
def st0 : StoreState := { conversations := [conv12], messages := [msg1], nextId := 2 }

/-- Store holding `conv12` and no messages yet. -/
def stEmpty : StoreState := { conversations := [conv12], messages := [], nextId := 1 }

/-- Send payload used against `stEmpty`. -/
def pSend : SendPayload :=
  { convId := 1, tempId := "t1", text := some "yo", attachments := none }

/-- The message `privateMessage` persists for `stEmpty`, sender 3, `pSend`
at time 100. -/
def msgFrom3 : Message :=
  { id := 1, conversationId := 1, senderId := 3, text := "yo", attachments := []
    editedAt := none, deleted := false, deletedForAll := false, seenBy := []
    createdAt := 100 }

/-- Socket system for conversation 1: socket 10 (user 1) and socket 20
(user 2), both joined to room 1. -/
def sysConv1 : SocketSystem :=
  { sockets := [10, 20], memberships := [(10, 1), (20, 1)] }

/-- The optimistic entry `sendMessage` builds for tempId `t1`, text "hi". -/
def optT1 : ClientMsg :=
  { id := "t1", temp := true, text := "hi", senderId := 1, status := "sending" }

/-- The canonical message as delivered by the server's ack and broadcast. -/
def canonM1 : ClientMsg :=
  { id := "m1", temp := false, text := "hi", senderId := 1, status := "" }

/-- Two messages in conversation 1 with the same `createdAt` but different
ids; stored with the higher id first (Mongo guarantees no particular order
among equal sort keys). -/
def msgTieA : Message :=
  { id := 1, conversationId := 1, senderId := 1, text := "a", attachments := []
    editedAt := none, deleted := false, deletedForAll := false, seenBy := []
    createdAt := 5 }

/-- Same creation timestamp as `msgTieA`, larger id. -/
def msgTieB : Message := { msgTieA with id := 2, text := "b" }

/-- Store sanity: message ids are pairwise distinct (Mongo `_id` is a
primary key) and below the id counter. It holds of the empty store and is
preserved by every operation. -/
def StoreInv (st : StoreState) : Prop :=
  (st.messages.map Message.id).Nodup ∧ ∀ m ∈ st.messages, m.id < st.nextId

instance (st : StoreState) : Decidable (StoreInv st) := by
  unfold StoreInv; exact instDecidableAnd

/-- Presence sanity: every `userSockets` entry holds a non-empty socket
set. `setOnline` creates entries only by adding a socket and `setOffline`
removes an entry that becomes empty, so this holds in every reachable
state. -/
def PresenceInv (st : PresenceState) : Prop :=
  ∀ p ∈ st.userSockets, p.2 ≠ []

instance (st : PresenceState) : Decidable (PresenceInv st) := by
  unfold PresenceInv; exact List.decidableBAll _ _

/-! ### C10 -/

/-- C10: a `private:message` event on a socket with no authenticated user
identity is acked `{ok:false, error:'not_authenticated'}` to the caller
only; no message is persisted, every conversation (hence every last-message
preview) is unchanged, and nothing is emitted to any room. -/
theorem c10_unauthenticated_send_rejected (st : StoreState) (p : SendPayload)
    (now : Nat) :
    (privateMessage st none p now).ack = .err "not_authenticated" ∧
    (privateMessage st none p now).state.messages = st.messages ∧
    (privateMessage st none p now).state.conversations = st.conversations ∧
    (privateMessage st none p now).emits = [] :=
  ⟨rfl, rfl, rfl, rfl⟩

/-! ### C1 -/

/-- C1 counterexample: user 3 is not a participant of conversation 1, yet
the `private:message` handler persists the message, updates the preview,
broadcasts to the room and acks `{ok:true}` — no Forbidden rejection
occurs. This refutes "a message is persisted only when the sender is a
participant of the conversation". -/
theorem c1_nonparticipant_send_persists :
    (3 ∉ conv12.participants) ∧
    privateMessage stEmpty (some 3) pSend 100 =
      { state :=
          { conversations :=
              [{ conv12 with lastMessageText := some "yo", lastMessageAt := some 100 }]
            messages := [msgFrom3], nextId := 2 }
        ack := .ok "t1" msgFrom3
        emits := [.toRoom 1 (.privateMsg 1 msgFrom3)] } :=
  ⟨by decide, rfl⟩

/-- C1 (amended): a send request fails only when the sender is
unauthenticated; for every authenticated sender — participant of the target
conversation or not — exactly one new message is persisted, the room
broadcast is issued and the caller is acked `{ok:true, tempId, message}`.
The handler performs no participant check at all. -/
theorem c1_send_no_participant_check (st : StoreState) (sender : Nat)
    (p : SendPayload) (now : Nat) :
    (∃ msg,
      (privateMessage st (some sender) p now).state.messages = st.messages ++ [msg] ∧
      msg.senderId = sender ∧ msg.conversationId = p.convId ∧
      msg.text = p.text.getD "" ∧
      (privateMessage st (some sender) p now).ack = .ok p.tempId msg ∧
      (privateMessage st (some sender) p now).emits =
        [.toRoom p.convId (.privateMsg p.convId msg)]) ∧
    privateMessage st none p now =
      { state := st, ack := .err "not_authenticated", emits := [] } :=
  ⟨⟨_, rfl, rfl, rfl, rfl, rfl, rfl⟩, rfl⟩

/-! ### C8 -/

/-- Adding an element already ensures membership. -/
theorem mem_addToSet (l : List Nat) (x : Nat) : x ∈ addToSet l x := by
  unfold addToSet
  split
  · assumption
  · exact List.mem_append_right l (List.mem_singleton.mpr rfl)

/-- Applying `$addToSet` twice with the same element is the same as once. -/
theorem addToSet_idem (l : List Nat) (x : Nat) :
    addToSet (addToSet l x) x = addToSet l x := by
  rw [addToSet, if_pos (mem_addToSet l x)]

/-- Applying `markSeen` twice with the same arguments equals applying it once. -/
theorem markSeen_idem (msgs : List Message) (ids : List Nat) (r : Nat) :
    markSeen (markSeen msgs ids r) ids r = markSeen msgs ids r := by
  induction msgs with
  | nil => rfl
  | cons m t ih =>
      by_cases h : m.id ∈ ids <;>
        simp [markSeen, h, addToSet_idem] at ih ⊢ <;> exact ih

/-- C8: the mark-seen operation is idempotent — applying the `message:seen`
update twice with the same conversation, message identities and reader
leaves exactly the store state (hence every message's seen-set) that one
application produces. -/
theorem c8_mark_seen_idempotent (st : StoreState) (u convId : Nat)
    (ids : List Nat) :
    (messageSeen (messageSeen st u convId ids).state u convId ids).state =
      (messageSeen st u convId ids).state := by
  simp [messageSeen, markSeen_idem]

/-! ### C2 -/

/-- The function `handleSendAck` would perform the tempId merge, but src/server.js never
emits the `private:message:ack` event it is wired to, so it is dead code:
shown here only to document that the live ack path (`clientAckOk`) differs
from it on the cache. -/
theorem handleSendAck_replaces_optimistic :
    (handleSendAck (clientSend ⟨[], []⟩ "t1" "hi" 1) "t1" canonM1).cache =
      [canonM1] := by decide

/-- C2: after the client processes both the ack callback and the room
broadcast for the same send — in either order — the cache holds TWO
entries: the optimistic entry still keyed by the tempId and the canonical
message appended by `receiveMessage`. The live ack callback
(chat.js:365-379) never replaces the optimistic entry and `receiveMessage`
(chat.js:325-338) appends unconditionally, although the file's own comments
promise "ack replacement" and "ensure optimistic replaced when the
broadcast arrives"; the replacement function `handleSendAck` is wired to a
server event that is never emitted. Only the duplicate-ack clause of the
claim holds: a second ack for the resolved tempId changes nothing. -/
theorem c2_duplicate_after_ack_and_broadcast :
    (receiveMessage (clientAckOk (clientSend ⟨[], []⟩ "t1" "hi" 1) "t1") canonM1 =
      ⟨[optT1, canonM1], []⟩) ∧
    (clientAckOk (receiveMessage (clientSend ⟨[], []⟩ "t1" "hi" 1) canonM1) "t1" =
      ⟨[optT1, canonM1], []⟩) ∧
    (([optT1, canonM1].filter (fun m => m.id = "t1")).length = 1) ∧
    (([optT1, canonM1].filter (fun m => m.id = "m1")).length = 1) ∧
    (clientAckOk ⟨[optT1, canonM1], []⟩ "t1" = ⟨[optT1, canonM1], []⟩) := by
  refine ⟨by decide, by decide, by decide, by decide, by decide⟩

/-! ### C3 -/

/-- C3 counterexample: user 1 deletes `msg1` with `forEveryone:false`. The
handler emits `message:deleted{deletedForAll:false}` to the whole room, so
socket 20 — the other participant's connection — receives the deletion
event; and `listMessages` (identical for every caller) thereafter returns
the message flagged `deleted`. Both observations contradict "observable
only to the requester". -/
theorem c3_local_delete_observed_by_other :
    ((deleteMessage st0 1 1 false).emits = [.toRoom 1 (.messageDeleted 1 1 false)]) ∧
    ((20, .messageDeleted 1 1 false) ∈
      deliverEmit sysConv1 (.toRoom 1 (.messageDeleted 1 1 false))) ∧
    (listMessages (deleteMessage st0 1 1 false).state.messages 1 =
      [{ msg1 with deleted := true }]) ∧
    msg1.deleted = false := by
  refine ⟨by decide, by decide, by decide, by decide⟩

/-! ### C4 -/

/-- C4 counterexample: socket 30 belongs to user 3, who is not a
participant of conversation 1; `private:join` nevertheless adds it to room
1, and a subsequent broadcast to that room is delivered to socket 30. -/
theorem c4_nonparticipant_join_succeeds :
    (3 ∉ conv12.participants) ∧
    (privateJoin { sockets := [30], memberships := [] } 30 (some 1)).memberships =
      [(30, 1)] ∧
    ((30, .privateMsg 1 msgFrom3) ∈
      deliverEmit (privateJoin { sockets := [30], memberships := [] } 30 (some 1))
        (.toRoom 1 (.privateMsg 1 msgFrom3))) := by
  refine ⟨by decide, by decide, by decide⟩

/-! ### C5 -/

/-- C5 counterexample: user 1 already has socket 10 connected (connection
set non-empty), yet a second connect with socket 11 emits `user:online`
again — the code emits on every authenticated connect, not only on the
0→1 transition. -/
theorem c5_online_emitted_when_already_online :
    (userConns (setOnline ⟨[], []⟩ 1 10).1 1 = [10]) ∧
    ((setOnline (setOnline ⟨[], []⟩ 1 10).1 1 11).2 =
      [.toAll (.userOnline 1)]) := by
  refine ⟨by decide, by decide⟩

/-! ### C6 -/

/-- C6 counterexample: user 1 is the sender of `msg1`, yet a `message:seen`
from user 1 for that message adds 1 to its seen-set — the handler excludes
neither the sender nor non-participants, refuting
`seen-set ⊆ participants \ {sender}`. -/
theorem c6_sender_added_to_own_seen_set :
    ((messageSeen st0 1 1 [1]).state.messages.map Message.seenBy = [[1]]) ∧
    msg1.senderId = 1 ∧
    ¬ (∀ m ∈ (messageSeen st0 1 1 [1]).state.messages,
        ∀ u ∈ m.seenBy, u ∈ conv12.participants ∧ u ≠ m.senderId) := by
  refine ⟨by decide, by decide, by decide⟩

/-! ### C7 -/

/-- C7 counterexample: the sender deletes `msg1` with `forEveryone:true`;
the text is cleared and the tombstone set, but the attachments are NOT
cleared — they survive unchanged, refuting "body and attachments are
cleared". -/
theorem c7_attachments_not_cleared :
    ((deleteMessage st0 1 1 true).state.messages =
      [{ msg1 with deleted := true, deletedForAll := true, text := "" }]) ∧
    ((deleteMessage st0 1 1 true).state.messages.map Message.attachments =
      [[att0]]) ∧
    msg1.attachments = [att0] := by
  refine ⟨by decide, by decide, by decide⟩

/-! ### C9 -/

/-- C9 counterexample: with two messages sharing `createdAt` stored
larger-id-first, `listMessages` (which sorts by `createdAt` alone) returns
them in storage order — NOT in the id order the claim requires, so its
output is not sorted under the spec's identity-tiebreak order. -/
theorem c9_tie_not_broken_by_id :
    (listMessages [msgTieB, msgTieA] 1 = [msgTieB, msgTieA]) ∧
    msgTieA.createdAt = msgTieB.createdAt ∧
    msgTieA.id < msgTieB.id ∧
    ¬ List.Sorted specLe (listMessages [msgTieB, msgTieA] 1) := by
  refine ⟨by decide, by decide, by decide, ?_⟩
  intro h
  have h' : List.Sorted specLe [msgTieB, msgTieA] := h
  exact absurd (List.rel_of_sorted_cons h' msgTieA (List.mem_singleton.mpr rfl))
    (by decide)

/-! ### Amended theorems for C3, C4, C7 -/

/-- A room emission is delivered to every connected socket joined to the
room. -/
theorem mem_deliverEmit_toRoom (sys : SocketSystem) (r : Nat) (e : WireEvent)
    (sid : Nat) (hs : sid ∈ sys.sockets) (hm : (sid, r) ∈ sys.memberships) :
    (sid, e) ∈ deliverEmit sys (.toRoom r e) := by
  unfold deliverEmit
  exact List.mem_map_of_mem _ (List.mem_filter.mpr ⟨hs, decide_eq_true hm⟩)

/-- C3 (amended): a delete with `forEveryone:false` on an existing message
sets the message's shared `deleted` flag (text, attachments and
`deletedForAll` unchanged) and broadcasts
`message:deleted{deletedForAll:false}` to the entire conversation room, so
every connection joined to the room — the other participant's included —
receives the deletion event, and the flagged message is what `listMessages`
thereafter returns to every caller (the endpoint has no per-requester
filtering). The effect is not limited to the requester. -/
theorem c3_local_delete_globally_visible (st : StoreState) (requester mid : Nat)
    (msg : Message) (h : findMessage st mid = some msg) :
    (deleteMessage st requester mid false).ack = .ok ∧
    (deleteMessage st requester mid false).state.messages =
      st.messages.map (fun m =>
        if m.id = msg.id then { msg with deleted := true } else m) ∧
    ({ msg with deleted := true }).text = msg.text ∧
    ({ msg with deleted := true }).deletedForAll = msg.deletedForAll ∧
    (deleteMessage st requester mid false).emits =
      [.toRoom msg.conversationId
        (.messageDeleted msg.conversationId msg.id false)] ∧
    (∀ (sys : SocketSystem) (sid : Nat), sid ∈ sys.sockets →
      (sid, msg.conversationId) ∈ sys.memberships →
      (sid, WireEvent.messageDeleted msg.conversationId msg.id false) ∈
        deliverEmit sys (.toRoom msg.conversationId
          (.messageDeleted msg.conversationId msg.id false))) := by
  refine ⟨?_, ?_, rfl, rfl, ?_, ?_⟩
  · simp [deleteMessage, h]
  · simp [deleteMessage, h, saveMessage]
  · simp [deleteMessage, h]
  · exact fun sys sid hs hm => mem_deliverEmit_toRoom sys _ _ sid hs hm

/-- Witness for C3's amended theorem at `st0`, requester 1, message 1. -/
theorem c3_local_delete_globally_visible_witness :
    findMessage st0 1 = some msg1 ∧
    ((deleteMessage st0 1 1 false).ack = .ok ∧
    (deleteMessage st0 1 1 false).state.messages =
      st0.messages.map (fun m =>
        if m.id = msg1.id then { msg1 with deleted := true } else m) ∧
    ({ msg1 with deleted := true }).text = msg1.text ∧
    ({ msg1 with deleted := true }).deletedForAll = msg1.deletedForAll ∧
    (deleteMessage st0 1 1 false).emits =
      [.toRoom msg1.conversationId
        (.messageDeleted msg1.conversationId msg1.id false)] ∧
    (∀ (sys : SocketSystem) (sid : Nat), sid ∈ sys.sockets →
      (sid, msg1.conversationId) ∈ sys.memberships →
      (sid, WireEvent.messageDeleted msg1.conversationId msg1.id false) ∈
        deliverEmit sys (.toRoom msg1.conversationId
          (.messageDeleted msg1.conversationId msg1.id false)))) :=
  ⟨by decide, c3_local_delete_globally_visible st0 1 1 msg1 (by decide)⟩

/-- C4 (amended): `private:join` adds any connection to any requested room
— no participant or authentication check is performed — and the connection
then receives every event broadcast to that room; the only refused join is
a request whose `convId` is missing, which leaves the socket system
unchanged. -/
theorem c4_join_unchecked (sys : SocketSystem) (sid c : Nat) (e : WireEvent)
    (hs : sid ∈ sys.sockets) :
    (sid, c) ∈ (privateJoin sys sid (some c)).memberships ∧
    (sid, e) ∈ deliverEmit (privateJoin sys sid (some c)) (.toRoom c e) ∧
    privateJoin sys sid none = sys := by
  by_cases h : (sid, c) ∈ sys.memberships
  · have hj : privateJoin sys sid (some c) = sys := by
      simp [privateJoin, h]
    rw [hj]
    exact ⟨h, mem_deliverEmit_toRoom sys c e sid hs h, rfl⟩
  · have hj : privateJoin sys sid (some c) =
        { sys with memberships := sys.memberships ++ [(sid, c)] } := by
      simp [privateJoin, h]
    rw [hj]
    have hm : (sid, c) ∈ sys.memberships ++ [(sid, c)] :=
      List.mem_append_right _ (List.mem_singleton.mpr rfl)
    exact ⟨hm, mem_deliverEmit_toRoom _ c e sid hs hm, rfl⟩

/-- Witness for C4's amended theorem: socket 10 of `sysConv1`. -/
theorem c4_join_unchecked_witness :
    10 ∈ sysConv1.sockets ∧
    ((10, 1) ∈ (privateJoin sysConv1 10 (some 1)).memberships ∧
     (10, WireEvent.userOnline 1) ∈
       deliverEmit (privateJoin sysConv1 10 (some 1))
         (.toRoom 1 (.userOnline 1)) ∧
     privateJoin sysConv1 10 none = sysConv1) :=
  ⟨by decide, c4_join_unchecked sysConv1 10 1 (.userOnline 1) (by decide)⟩

/-- C7 (amended): delete with `forEveryone:true` on an existing message
fails with `not_allowed` (leaving state and emissions untouched) unless the
requester is the sender; on success the body text is cleared and the
`deleted`/`deletedForAll` tombstone flags are set, but the attachments are
retained unchanged; the message row is kept (it is still present, with
empty text and the tombstone flag), and
`message:deleted{deletedForAll:true}` is broadcast to the room. -/
theorem c7_delete_for_everyone (st : StoreState) (requester mid : Nat)
    (msg : Message) (h : findMessage st mid = some msg) :
    (msg.senderId ≠ requester →
      deleteMessage st requester mid true =
        { state := st, ack := .notAllowed, emits := [] }) ∧
    (msg.senderId = requester →
      (deleteMessage st requester mid true).ack = .ok ∧
      (deleteMessage st requester mid true).state.messages =
        st.messages.map (fun m =>
          if m.id = msg.id then
            { msg with deleted := true, deletedForAll := true, text := "" }
          else m) ∧
      ({ msg with deleted := true, deletedForAll := true, text := "" }).attachments = msg.attachments ∧
      (∃ m', m' ∈ (deleteMessage st requester mid true).state.messages ∧
        m'.id = msg.id ∧ m'.text = "" ∧ m'.deleted = true ∧
        m'.deletedForAll = true ∧ m'.attachments = msg.attachments) ∧
      (deleteMessage st requester mid true).emits =
        [.toRoom msg.conversationId
          (.messageDeleted msg.conversationId msg.id true)]) := by
  constructor
  · intro hne
    simp [deleteMessage, h, hne]
  · intro heq
    have hmem : msg ∈ st.messages := List.mem_of_find?_eq_some h
    refine ⟨?_, ?_, rfl, ?_, ?_⟩
    · simp [deleteMessage, h, heq]
    · simp [deleteMessage, h, heq, saveMessage]
    · refine ⟨{ msg with deleted := true, deletedForAll := true, text := "" },
        ?_, rfl, rfl, rfl, rfl, rfl⟩
      have : (deleteMessage st requester mid true).state.messages =
          st.messages.map (fun m =>
            if m.id = msg.id then
              { msg with deleted := true, deletedForAll := true, text := "" }
            else m) := by
        simp [deleteMessage, h, heq, saveMessage]
      rw [this]
      have himg := List.mem_map_of_mem (fun m =>
        if m.id = msg.id then
          { msg with deleted := true, deletedForAll := true, text := "" }
        else m) hmem
      simpa using himg
    · simp [deleteMessage, h, heq]

/-- Witness for C7's amended theorem at `st0`, requester 1, message 1
(requester is the sender, so the success branch is exercised). -/
theorem c7_delete_for_everyone_witness :
    findMessage st0 1 = some msg1 ∧ msg1.senderId = 1 ∧
    ((deleteMessage st0 1 1 true).ack = .ok ∧
     (deleteMessage st0 1 1 true).state.messages =
       st0.messages.map (fun m =>
         if m.id = msg1.id then
           { msg1 with deleted := true, deletedForAll := true, text := "" }
         else m) ∧
     ({ msg1 with deleted := true, deletedForAll := true, text := "" }).attachments = msg1.attachments ∧
     (∃ m', m' ∈ (deleteMessage st0 1 1 true).state.messages ∧
       m'.id = msg1.id ∧ m'.text = "" ∧ m'.deleted = true ∧
       m'.deletedForAll = true ∧ m'.attachments = msg1.attachments) ∧
     (deleteMessage st0 1 1 true).emits =
       [.toRoom msg1.conversationId
         (.messageDeleted msg1.conversationId msg1.id true)]) :=
  ⟨by decide, by decide,
    (c7_delete_for_everyone st0 1 1 msg1 (by decide)).2 (by decide)⟩

/-! ### Association-list lemmas and the amended C5 theorem -/

/-- A successful lookup names a pair of the list. -/
theorem assocGet_mem {l : List (Nat × List Nat)} {k : Nat} {v : List Nat}
    (h : assocGet l k = some v) : (k, v) ∈ l := by
  unfold assocGet at h
  cases hf : l.find? (fun p => p.1 = k) with
  | none => rw [hf] at h; cases h
  | some pr =>
      rw [hf] at h
      have hv : pr.2 = v := by simpa using h
      have hm := List.mem_of_find?_eq_some hf
      have hk : pr.1 = k := by simpa using List.find?_some hf
      have : pr = (k, v) := by
        cases pr; simp_all
      rw [← this]; exact hm

/-- A `Map.set` on a cons with a non-matching head pushes inside. -/
theorem assocSet_cons_ne {p : Nat × List Nat} {t : List (Nat × List Nat)}
    {k : Nat} (hp : p.1 ≠ k) (v : List Nat) :
    assocSet (p :: t) k v = p :: assocSet t k v := by
  unfold assocSet
  have hfind : (p :: t).find? (fun q => q.1 = k) = t.find? (fun q => q.1 = k) := by
    simp [List.find?, hp]
  rw [hfind]
  cases hs : t.find? (fun q => q.1 = k) with
  | none => simp [hs, List.cons_append]
  | some q => simp [hs, hp]

/-- Lookup after `Map.set` at the same key. -/
theorem assocGet_assocSet (l : List (Nat × List Nat)) (k : Nat)
    (v : List Nat) : assocGet (assocSet l k v) k = some v := by
  induction l with
  | nil => simp [assocGet, assocSet, List.find?]
  | cons p t ih =>
      by_cases hp : p.1 = k
      · unfold assocSet
        have hfind : (p :: t).find? (fun q => q.1 = k) = some p := by
          simp [List.find?, hp]
        rw [hfind]
        simp only [Option.isSome_some, if_true]
        unfold assocGet
        have : ((p :: t).map (fun q => if q.1 = k then (k, v) else q)).find?
            (fun q => q.1 = k) = some (k, v) := by
          simp [List.find?, hp]
        rw [this]
        rfl
      · rw [assocSet_cons_ne hp]
        unfold assocGet
        have : ((p :: assocSet t k v).find? (fun q => q.1 = k)) =
            (assocSet t k v).find? (fun q => q.1 = k) := by
          simp [List.find?, hp]
        rw [this]
        exact ih

/-- Lookup after `Map.delete` at the same key. -/
theorem assocGet_assocRemove (l : List (Nat × List Nat)) (k : Nat) :
    assocGet (assocRemove l k) k = none := by
  unfold assocGet assocRemove
  cases hf : (l.filter (fun p => p.1 ≠ k)).find? (fun p => p.1 = k) with
  | none => simp [hf]
  | some pr =>
      have h1 : pr.1 = k := by simpa using List.find?_some hf
      have h3 : pr.1 ≠ k := by
        simpa using List.of_mem_filter (List.mem_of_find?_eq_some hf)
      exact absurd h1 h3

/-- Any pair of `assocSet l k v` is a pair of `l` or the pair `(k, v)`. -/
theorem mem_assocSet {l : List (Nat × List Nat)} {k : Nat} {v : List Nat}
    {p : Nat × List Nat} (hp : p ∈ assocSet l k v) : p ∈ l ∨ p = (k, v) := by
  unfold assocSet at hp
  split at hp
  · obtain ⟨q, hq, rfl⟩ := List.mem_map.mp hp
    by_cases hqk : q.1 = k
    · right; simp [hqk]
    · left; simpa [hqk] using hq
  · rcases List.mem_append.mp hp with h | h
    · exact Or.inl h
    · exact Or.inr (List.mem_singleton.mp h)

/-- The function `setOnline` preserves the presence invariant. -/
theorem presenceInv_setOnline (st : PresenceState) (u s : Nat)
    (h : PresenceInv st) : PresenceInv (setOnline st u s).1 := by
  intro p hp
  rcases mem_assocSet hp with hmem | rfl
  · exact h p hmem
  · by_cases hin : s ∈ (assocGet st.userSockets u).getD []
    · simp only [if_pos hin]
      exact List.ne_nil_of_mem hin
    · simp only [if_neg hin]
      simp

/-- The function `setOffline` preserves the presence invariant. -/
theorem presenceInv_setOffline (st : PresenceState) (u s now : Nat)
    (h : PresenceInv st) : PresenceInv (setOffline st u s now).1 := by
  unfold setOffline
  cases hg : assocGet st.userSockets u with
  | none => exact fun p hp => h p hp
  | some s0 =>
      by_cases he : s0.erase s = []
      · simp only [he, if_true]
        intro p hp
        exact h p (List.mem_of_mem_filter hp)
      · simp only [he, if_neg he]
        intro p hp
        rcases mem_assocSet hp with hmem | rfl
        · exact h p hmem
        · exact he

/-- C5 (amended): `user:online` is emitted on EVERY authenticated connect,
regardless of whether the user's connection set was already non-empty; the
offline side matches the claim exactly: `user:offline {userId, lastSeenAt}`
is emitted precisely when the disconnect takes the user's connection set
from non-empty to empty, and a disconnect that leaves the set non-empty (or
concerns an unknown user) emits nothing. -/
theorem c5_presence_transitions (st : PresenceState) (u s now : Nat)
    (hinv : PresenceInv st) :
    (setOnline st u s).2 = [.toAll (.userOnline u)] ∧
    ((setOffline st u s now).2 = [.toAll (.userOffline u now)] ↔
      (userConns st u ≠ [] ∧ userConns (setOffline st u s now).1 u = [])) ∧
    ((setOffline st u s now).2 = [.toAll (.userOffline u now)] ∨
      (setOffline st u s now).2 = []) := by
  refine ⟨rfl, ?_, ?_⟩
  · unfold setOffline userConns
    cases hg : assocGet st.userSockets u with
    | none => simp [hg]
    | some s0 =>
        have hne : s0 ≠ [] := hinv _ (assocGet_mem hg)
        by_cases he : s0.erase s = []
        · simp [hg, he, assocGet_assocRemove, hne]
        · simp [hg, he, assocGet_assocSet]
  · unfold setOffline
    cases hg : assocGet st.userSockets u with
    | none => simp [hg]
    | some s0 =>
        by_cases he : s0.erase s = []
        · simp [hg, he]
        · simp [hg, he]

/-- Witness for C5's amended theorem: the state with exactly user 1's
socket 10 connected. -/
theorem c5_presence_transitions_witness :
    PresenceInv (setOnline ⟨[], []⟩ 1 10).1 ∧
    ((setOnline (setOnline ⟨[], []⟩ 1 10).1 1 11).2 =
        [.toAll (.userOnline 1)] ∧
     ((setOffline (setOnline ⟨[], []⟩ 1 10).1 1 10 50).2 =
        [.toAll (.userOffline 1 50)] ↔
       (userConns (setOnline ⟨[], []⟩ 1 10).1 1 ≠ [] ∧
        userConns (setOffline (setOnline ⟨[], []⟩ 1 10).1 1 10 50).1 1 = [])) ∧
     ((setOffline (setOnline ⟨[], []⟩ 1 10).1 1 10 50).2 =
        [.toAll (.userOffline 1 50)] ∨
      (setOffline (setOnline ⟨[], []⟩ 1 10).1 1 10 50).2 = [])) :=
  ⟨by decide,
    by
      have h := c5_presence_transitions (setOnline ⟨[], []⟩ 1 10).1 1 10 50
        (by decide)
      have h1 := c5_presence_transitions (setOnline ⟨[], []⟩ 1 10).1 1 11 50
        (by decide)
      exact ⟨h1.1, h.2.1, h.2.2⟩⟩

/-! ### Sortedness of `listMessages` and the amended C9 theorem -/

/-- Membership through one insertion step. -/
theorem mem_insertByCreatedAt {y m : Message} {l : List Message} :
    y ∈ insertByCreatedAt m l ↔ y = m ∨ y ∈ l := by
  induction l with
  | nil => simp [insertByCreatedAt]
  | cons x xs ih =>
      unfold insertByCreatedAt
      split
      · simp [List.mem_cons]
      · simp only [List.mem_cons, ih]
        tauto

/-- Inserting into a `createdAt`-sorted list keeps it sorted. -/
theorem sorted_insertByCreatedAt {l : List Message} (m : Message)
    (h : List.Sorted (fun a b => a.createdAt ≤ b.createdAt) l) :
    List.Sorted (fun a b => a.createdAt ≤ b.createdAt)
      (insertByCreatedAt m l) := by
  induction l with
  | nil => simp [insertByCreatedAt]
  | cons x xs ih =>
      rw [List.sorted_cons] at h
      obtain ⟨hx, hxs⟩ := h
      unfold insertByCreatedAt
      split
      case isTrue hle =>
        rw [List.sorted_cons]
        refine ⟨?_, ?_⟩
        · intro b hb
          rcases List.mem_cons.mp hb with rfl | hb'
          · exact hle
          · exact le_trans hle (hx b hb')
        · rw [List.sorted_cons]; exact ⟨hx, hxs⟩
      case isFalse hgt =>
        rw [List.sorted_cons]
        refine ⟨?_, ih hxs⟩
        intro b hb
        rcases mem_insertByCreatedAt.mp hb with rfl | hb'
        · exact le_of_not_le hgt
        · exact hx b hb'

/-- The stable sort is sorted by `createdAt`. -/
theorem sorted_sortByCreatedAt (msgs : List Message) :
    List.Sorted (fun a b => a.createdAt ≤ b.createdAt)
      (sortByCreatedAt msgs) := by
  induction msgs with
  | nil => simp [sortByCreatedAt]
  | cons m t ih => exact sorted_insertByCreatedAt m ih

/-- The stable sort preserves membership. -/
theorem mem_sortByCreatedAt {y : Message} {msgs : List Message} :
    y ∈ sortByCreatedAt msgs ↔ y ∈ msgs := by
  induction msgs with
  | nil => simp [sortByCreatedAt]
  | cons m t ih =>
      show y ∈ insertByCreatedAt m (sortByCreatedAt t) ↔ _
      rw [mem_insertByCreatedAt, ih]
      simp [List.mem_cons]

/-- C9 (amended): `listMessages` returns messages of the requested
conversation sorted by creation timestamp ascending only (first 1000);
identity is not used as a tiebreaker — messages sharing a `createdAt`
appear in the underlying store order (which the query leaves unspecified),
so the claimed identity-tiebroken total order is not guaranteed
(see the counterexample). -/
theorem c9_sorted_by_created_at_only (msgs : List Message) (convId : Nat) :
    List.Sorted (fun a b => a.createdAt ≤ b.createdAt)
      (listMessages msgs convId) ∧
    ∀ m ∈ listMessages msgs convId, m.conversationId = convId ∧ m ∈ msgs := by
  constructor
  · exact List.Pairwise.sublist (List.take_sublist _ _)
      (sorted_sortByCreatedAt _)
  · intro m hm
    have h1 : m ∈ sortByCreatedAt
        (msgs.filter (fun x => x.conversationId = convId)) :=
      (List.take_sublist _ _).subset hm
    have h2 := mem_sortByCreatedAt.mp h1
    obtain ⟨hmem, hpred⟩ := List.mem_filter.mp h2
    exact ⟨of_decide_eq_true hpred, hmem⟩

/-! ### Seen-set monotonicity machinery and the amended C6 theorem -/

/-- A list never shrinks under `$addToSet`. -/
theorem subset_addToSet (l : List Nat) (x : Nat) : l ⊆ addToSet l x := by
  unfold addToSet
  split
  · exact fun _ hx => hx
  · exact List.subset_append_left _ _

/-- With pairwise-distinct ids, two members sharing an id coincide. -/
theorem eq_of_mem_id_nodup {msgs : List Message}
    (hnd : (msgs.map Message.id).Nodup) {a b : Message} (ha : a ∈ msgs)
    (hb : b ∈ msgs) (hab : a.id = b.id) : a = b :=
  List.inj_on_of_nodup_map hnd ha hb hab

/-- Mapping an id-preserving function leaves the id list unchanged. -/
theorem map_id_eq {msgs : List Message} {f : Message → Message}
    (h : ∀ m ∈ msgs, (f m).id = m.id) :
    (msgs.map f).map Message.id = msgs.map Message.id := by
  induction msgs with
  | nil => rfl
  | cons m t ih =>
      simp only [List.map_cons, List.cons.injEq]
      exact ⟨h m (List.mem_cons_self m t),
        ih (fun x hx => h x (List.mem_cons_of_mem m hx))⟩

/-- Every store operation either leaves the message list unchanged, appends
one fresh message (id = the counter), or maps an id-preserving,
seen-set-non-decreasing function over it. The nodup hypothesis is needed in
the edit/delete cases to identify the re-saved document with the found
one. -/
theorem applyOp_shape (st : StoreState) (op : ServerOp)
    (hnd : (st.messages.map Message.id).Nodup) :
    ((applyOp st op).messages = st.messages ∧
      (applyOp st op).nextId = st.nextId) ∨
    (∃ n, (applyOp st op).messages = st.messages ++ [n] ∧ n.id = st.nextId ∧
      (applyOp st op).nextId = st.nextId + 1) ∨
    (∃ f, (applyOp st op).messages = st.messages.map f ∧
      (applyOp st op).nextId = st.nextId ∧
      ∀ m ∈ st.messages, (f m).id = m.id ∧ m.seenBy ⊆ (f m).seenBy) := by
  cases op with
  | send u p now =>
      cases u with
      | none => exact Or.inl ⟨rfl, rfl⟩
      | some sender => exact Or.inr (Or.inl ⟨_, rfl, rfl, rfl⟩)
  | edit u mid t now =>
      have happ : applyOp st (ServerOp.edit u mid t now) =
          (editMessage st u mid t now).state := rfl
      cases hf : findMessage st mid with
      | none =>
          refine Or.inl ?_
          rw [happ]
          simp [editMessage, hf]
      | some msg =>
          by_cases hs : msg.senderId ≠ u
          · refine Or.inl ?_
            rw [happ]
            simp [editMessage, hf, hs]
          · have hmsg : msg ∈ st.messages := List.mem_of_find?_eq_some hf
            refine Or.inr (Or.inr ⟨fun m =>
              if m.id = msg.id
              then { msg with text := t, editedAt := some now } else m,
              ?_, ?_, ?_⟩)
            · rw [happ]
              simp [editMessage, hf, hs, saveMessage]
            · rw [happ]
              simp [editMessage, hf, hs, saveMessage]
            · intro m hm
              dsimp only
              constructor
              · split
                next h => exact h.symm
                next h => rfl
              · split
                next h =>
                  have hmm : m = msg := eq_of_mem_id_nodup hnd hm hmsg h
                  rw [hmm]
                  exact fun _ hx => hx
                next h => exact fun _ hx => hx
  | del u mid fa =>
      have happ : applyOp st (ServerOp.del u mid fa) =
          (deleteMessage st u mid fa).state := rfl
      cases hf : findMessage st mid with
      | none =>
          refine Or.inl ?_
          rw [happ]
          simp [deleteMessage, hf]
      | some msg =>
          have hmsg : msg ∈ st.messages := List.mem_of_find?_eq_some hf
          cases fa with
          | true =>
              by_cases hs : msg.senderId ≠ u
              · refine Or.inl ?_
                rw [happ]
                simp [deleteMessage, hf, hs]
              · refine Or.inr (Or.inr ⟨fun m =>
                  if m.id = msg.id
                  then { msg with deleted := true, deletedForAll := true, text := "" } else m,
                  ?_, ?_, ?_⟩)
                · rw [happ]
                  simp [deleteMessage, hf, hs, saveMessage]
                · rw [happ]
                  simp [deleteMessage, hf, hs, saveMessage]
                · intro m hm
                  dsimp only
                  constructor
                  · split
                    next h => exact h.symm
                    next h => rfl
                  · split
                    next h =>
                      have hmm : m = msg := eq_of_mem_id_nodup hnd hm hmsg h
                      rw [hmm]
                      exact fun _ hx => hx
                    next h => exact fun _ hx => hx
          | false =>
              refine Or.inr (Or.inr ⟨fun m =>
                if m.id = msg.id then { msg with deleted := true } else m,
                ?_, ?_, ?_⟩)
              · rw [happ]
                simp [deleteMessage, hf, saveMessage]
              · rw [happ]
                simp [deleteMessage, hf, saveMessage]
              · intro m hm
                dsimp only
                constructor
                · split
                  next h => exact h.symm
                  next h => rfl
                · split
                  next h =>
                    have hmm : m = msg := eq_of_mem_id_nodup hnd hm hmsg h
                    rw [hmm]
                    exact fun _ hx => hx
                  next h => exact fun _ hx => hx
  | seen u c ids =>
      refine Or.inr (Or.inr ⟨fun m =>
        if m.id ∈ ids then { m with seenBy := addToSet m.seenBy u } else m,
        rfl, rfl, ?_⟩)
      intro m hm
      dsimp only
      constructor
      · split <;> rfl
      · split
        next h => exact subset_addToSet _ _
        next h => exact fun _ hx => hx

/-- The invariant `StoreInv` is preserved by every operation. -/
theorem storeInv_applyOp (st : StoreState) (op : ServerOp)
    (h : StoreInv st) : StoreInv (applyOp st op) := by
  obtain ⟨hnd, hlt⟩ := h
  rcases applyOp_shape st op hnd with ⟨hm, hn⟩ | ⟨n, hm, hid, hn⟩ |
    ⟨f, hm, hn, hf⟩
  · refine ⟨by rw [hm]; exact hnd, fun m hmm => ?_⟩
    rw [hn]
    rw [hm] at hmm
    exact hlt m hmm
  · constructor
    · rw [hm, List.map_append, List.nodup_append]
      refine ⟨hnd, List.nodup_singleton _, ?_⟩
      intro a ha hb
      simp only [List.map_cons, List.map_nil, List.mem_singleton] at hb
      obtain ⟨x, hx, rfl⟩ := List.mem_map.mp ha
      have hxlt := hlt x hx
      rw [hb, hid] at hxlt
      exact lt_irrefl _ hxlt
    · intro m hmm
      rw [hn]
      rw [hm] at hmm
      rcases List.mem_append.mp hmm with h1 | h1
      · exact lt_trans (hlt m h1) (Nat.lt_succ_self _)
      · rw [List.mem_singleton] at h1
        rw [h1, hid]
        exact Nat.lt_succ_self _
  · constructor
    · rw [hm, map_id_eq (fun m hmm => (hf m hmm).1)]
      exact hnd
    · intro m hmm
      rw [hn]
      rw [hm] at hmm
      obtain ⟨x, hx, rfl⟩ := List.mem_map.mp hmm
      rw [(hf x hx).1]
      exact hlt x hx

/-- One operation never loses a message's seen-set entries. -/
theorem seen_monotone_step (st : StoreState) (op : ServerOp)
    (h : StoreInv st) :
    ∀ m ∈ st.messages, ∃ m', m' ∈ (applyOp st op).messages ∧
      m'.id = m.id ∧ m.seenBy ⊆ m'.seenBy := by
  rcases applyOp_shape st op h.1 with ⟨hm, _⟩ | ⟨n, hm, _, _⟩ |
    ⟨f, hm, _, hf⟩
  · exact fun m hmm => ⟨m, by rw [hm]; exact hmm, rfl, fun _ hx => hx⟩
  · exact fun m hmm =>
      ⟨m, by rw [hm]; exact List.mem_append_left _ hmm, rfl, fun _ hx => hx⟩
  · exact fun m hmm =>
      ⟨f m, by rw [hm]; exact List.mem_map_of_mem f hmm, (hf m hmm).1,
        (hf m hmm).2⟩

/-- C6 (amended): across every sequence of send/edit/delete/seen
operations, each existing message persists under its id with a seen-set
that never shrinks (mark-seen only adds; edit and the two delete variants
do not touch `seenBy`). The spec's confinement
`seen-set ⊆ participants \ {sender}` does NOT hold: the seen handler adds
the requesting user unconditionally, sender or non-participant included
(see the counterexample). -/
theorem c6_seen_monotone (st : StoreState) (ops : List ServerOp)
    (hinv : StoreInv st) :
    ∀ m ∈ st.messages, ∃ m', m' ∈ (applyOps st ops).messages ∧
      m'.id = m.id ∧ m.seenBy ⊆ m'.seenBy := by
  induction ops generalizing st with
  | nil => exact fun m hm => ⟨m, hm, rfl, fun _ hx => hx⟩
  | cons op ops ih =>
      intro m hm
      obtain ⟨m1, hm1, hid1, hsub1⟩ := seen_monotone_step st op hinv m hm
      obtain ⟨m2, hm2, hid2, hsub2⟩ :=
        ih (applyOp st op) (storeInv_applyOp st op hinv) m1 hm1
      exact ⟨m2, hm2, hid2.trans hid1, fun a ha => hsub2 (hsub1 ha)⟩

/-- Witness for C6's amended theorem: `msg1` across a seen operation. -/
theorem c6_seen_monotone_witness :
    StoreInv st0 ∧ msg1 ∈ st0.messages ∧
    (∃ m', m' ∈ (applyOps st0 [.seen 1 1 [1]]).messages ∧ m'.id = msg1.id ∧
      msg1.seenBy ⊆ m'.seenBy) :=
  ⟨by decide, by decide,
    c6_seen_monotone st0 [.seen 1 1 [1]] (by decide) msg1 (by decide)⟩

end EclipseChat
